import Mathlib

/-!
Verification of the chat frontend of the llamaindex demo repository.

The definitions below are a shallow embedding of the client-side code:

* `src/frontend/hooks/use-chat.ts` — the `useChat` hook: `sendMessage`
  builds the request body, appends the user message and an empty
  assistant placeholder, then reads the response stream, splitting the
  byte stream on newlines, parsing `data: ` lines into events and
  applying each event to the message list.
* `src/frontend/components/chat-message.tsx` — renders the sources of a
  message sorted by descending score.
* `src/frontend/components/file-upload.tsx` — dropzone configuration
  (allowed extensions, 15 MB ceiling) and the `onDrop` handler.
* `src/unnamed/part_002` / `src/unnamed/part_004` — the user-id
  initialisation against `localStorage`.

JavaScript numbers (the `score` fields) are modelled as rationals: for
finite floats, comparison and the sign of subtraction agree with the
rational order, which is all the sorting code observes.  JavaScript
strings are modelled as Lean `String`s, and the raw stream buffer as a
`List Char` (the `TextDecoder` with `stream: true` never splits a
multi-byte character across reads, so the decoded stream is a character
sequence partitioned into arbitrary chunks).
-/

namespace LlamaChat

/-- Role of a chat message (`"user" | "assistant"` in `use-chat.ts`). -/
inductive Role where
  | user
  | assistant
deriving DecidableEq, Repr

/-- Source citation record (`Source` in `use-chat.ts`): filename, text
and similarity score. -/
structure Source where
  filename : String
  text : String
  score : ℚ
deriving DecidableEq, Repr

/-- Chat message (`Message` in `use-chat.ts`).  `sources` is optional,
`id` is optional. -/
structure Message where
  role : Role
  content : String
  sources : Option (List Source) := none
  id : Option String := none
deriving DecidableEq, Repr

/-- One parsed streaming event: the JSON envelope
`type : content | sources | error` with its data, plus a case for
envelopes whose `type` matches none of the three branches of the
dispatch in `use-chat.ts` lines 103-123 (those fall through with no
effect). -/
inductive StreamEvent where
  | content (delta : String)
  | sources (srcs : List Source)
  | error (message : String)
  | unknown
deriving DecidableEq, Repr

/-- State of the streaming loop of `sendMessage`
(`use-chat.ts` lines 84-128): the message list together with the
accumulators `currentContent` and `currentSources`. -/
structure StreamLoopState where
  messages : List Message
  currentContent : String
  currentSources : List Source
deriving DecidableEq, Repr

/-- Effect of one parsed event on the loop state, from the dispatch in
`use-chat.ts` lines 103-123.

* `content`: `currentContent += delta` and every message whose id is the
  assistant placeholder id gets `content := currentContent`.
* `sources`: `currentSources := data.sources` and the matching messages
  get `sources := currentSources`.
* `error`: the code throws, but the `throw` sits inside the per-line
  `try` whose `catch` (line 124) only logs, so the state is unchanged
  and iteration continues.
* `unknown`: no branch matches, state unchanged. -/
def applyEvent (aid : String) (st : StreamLoopState) : StreamEvent → StreamLoopState
  | .content d =>
      let c := st.currentContent ++ d
      { st with
        currentContent := c
        messages := st.messages.map fun m =>
          if m.id = some aid then { m with content := c } else m }
  | .sources s =>
      { st with
        currentSources := s
        messages := st.messages.map fun m =>
          if m.id = some aid then { m with sources := some s } else m }
  | .error _ => st
  | .unknown => st

/-- Folding a sequence of parsed events through the loop. -/
def processEvents (aid : String) (st : StreamLoopState) (es : List StreamEvent) :
    StreamLoopState :=
  es.foldl (applyEvent aid) st

/-- Concatenation, in arrival order, of the `delta` fields of the
content events of a stream. -/
def concatDeltas : List StreamEvent → String
  | [] => ""
  | .content d :: es => d ++ concatDeltas es
  | _ :: es => concatDeltas es

/-- The assistant placeholder appended before streaming starts
(`use-chat.ts` lines 50-55): empty content, empty sources, fresh id. -/
def assistantPlaceholder (aid : String) : Message :=
  { role := .assistant, content := "", sources := some [], id := some aid }

/-- Message-list state right after `sendMessage` appended the user
message and the placeholder (`use-chat.ts` lines 47-56) and before any
stream data arrived (`currentContent` and `currentSources` start empty,
lines 85-86). -/
def initLoopState (prev : List Message) (u : Message) (aid : String) :
    StreamLoopState :=
  { messages := prev ++ [u, assistantPlaceholder aid]
    currentContent := ""
    currentSources := [] }

theorem concatDeltas_append (a b : List StreamEvent) :
    concatDeltas (a ++ b) = concatDeltas a ++ concatDeltas b := by
  induction a with
  | nil => simp [concatDeltas]
  | cons e es ih =>
    cases e <;> simp [concatDeltas, ih, String.append_assoc]

theorem currentContent_processEvents (aid : String) (es : List StreamEvent) :
    ∀ st : StreamLoopState,
      (processEvents aid st es).currentContent =
        st.currentContent ++ concatDeltas es := by
  induction es with
  | nil => intro st; simp [processEvents, concatDeltas]
  | cons e es ih =>
    intro st
    cases e with
    | content d =>
      simp [processEvents, applyEvent, concatDeltas, List.foldl_cons] at *
      rw [ih, String.append_assoc]
    | sources s => simpa [processEvents, applyEvent, concatDeltas] using ih _
    | error m => simpa [processEvents, applyEvent, concatDeltas] using ih _
    | unknown => simpa [processEvents, applyEvent, concatDeltas] using ih _

/-- Invariant of the streaming loop: every message whose id is the
assistant placeholder id carries exactly the accumulated content. -/
def ContentInv (aid : String) (st : StreamLoopState) : Prop :=
  ∀ m ∈ st.messages, m.id = some aid → m.content = st.currentContent

theorem contentInv_applyEvent (aid : String) (st : StreamLoopState)
    (e : StreamEvent) (h : ContentInv aid st) :
    ContentInv aid (applyEvent aid st e) := by
  cases e with
  | content d =>
    intro m hm hid
    simp only [applyEvent, List.mem_map] at hm
    obtain ⟨m₀, _, rfl⟩ := hm
    by_cases h₀ : m₀.id = some aid <;> simp_all [applyEvent]
  | sources s =>
    intro m hm hid
    simp only [applyEvent, List.mem_map] at hm
    obtain ⟨m₀, hm₀, rfl⟩ := hm
    by_cases h₀ : m₀.id = some aid <;> simp_all [applyEvent]
    exact h m₀ hm₀ h₀
  | error m => exact h
  | unknown => exact h

theorem contentInv_processEvents (aid : String) (es : List StreamEvent) :
    ∀ st : StreamLoopState, ContentInv aid st →
      ContentInv aid (processEvents aid st es) := by
  induction es with
  | nil => intro st h; exact h
  | cons e es ih =>
    intro st h
    exact ih _ (contentInv_applyEvent aid st e h)

/-- C1: the assistant message starts with empty content; after
processing any prefix `es` of the event stream its content equals the
concatenation, in arrival order, of the deltas of the content events
processed so far; and along any extension of the stream the content only
grows by appending (the previous content is a prefix of the new one). -/
theorem assistant_content_append_only
    (prev : List Message) (u : Message) (aid : String)
    (hprev : ∀ m ∈ prev, m.id ≠ some aid) (hu : u.id ≠ some aid) :
    (assistantPlaceholder aid).content = "" ∧
    (∀ es : List StreamEvent,
      ∀ m ∈ (processEvents aid (initLoopState prev u aid) es).messages,
        m.id = some aid → m.content = concatDeltas es) ∧
    (∀ es₁ es₂ : List StreamEvent, es₁ <+: es₂ →
      ∃ t : String, concatDeltas es₁ ++ t = concatDeltas es₂) := by
  refine ⟨rfl, ?_, ?_⟩
  · intro es m hm hid
    have hinv : ContentInv aid (initLoopState prev u aid) := by
      intro m₀ hm₀ hid₀
      simp only [initLoopState, List.mem_append, List.mem_cons,
        List.mem_singleton] at hm₀
      rcases hm₀ with h₀ | h₀ | h₀ | h₀
      · exact absurd hid₀ (hprev m₀ h₀)
      · exact absurd (h₀ ▸ hid₀) hu
      · subst h₀; rfl
      · simp at h₀
    have := contentInv_processEvents aid es _ hinv m hm hid
    rw [this, currentContent_processEvents]
    simp [initLoopState]
  · rintro es₁ es₂ ⟨t, rfl⟩
    exact ⟨concatDeltas t, (concatDeltas_append es₁ t).symm⟩

/-- Witness for C1 at a concrete instance: empty history, a user message
with id `1`, placeholder id `2`. -/
theorem assistant_content_append_only_witness :
    (∀ m ∈ ([] : List Message), m.id ≠ some "2") ∧
    (⟨Role.user, "hi", none, some "1"⟩ : Message).id ≠ some "2" ∧
    ((assistantPlaceholder "2").content = "" ∧
    (∀ es : List StreamEvent,
      ∀ m ∈ (processEvents "2"
          (initLoopState [] ⟨.user, "hi", none, some "1"⟩ "2") es).messages,
        m.id = some "2" → m.content = concatDeltas es) ∧
    (∀ es₁ es₂ : List StreamEvent, es₁ <+: es₂ →
      ∃ t : String, concatDeltas es₁ ++ t = concatDeltas es₂)) :=
  ⟨by simp, by simp,
    assistant_content_append_only [] ⟨.user, "hi", none, some "1"⟩ "2"
      (by simp) (by simp)⟩

/-- C2: evidence of the divergence between the code and the claim.  In
`use-chat.ts` the `error` branch throws (line 122), but the `throw` is
inside the per-line `try` whose `catch` (line 124) only logs, so the
loop is NOT terminated: a `content` event arriving after the `error`
event is still applied to the assistant message.  Concretely, processing
`[error "boom", content "after"]` produces exactly the same state as
processing `[content "after"]` alone, and the assistant message ends
with content `"after"`, not frozen at `""`. -/
theorem error_event_not_terminal :
    (processEvents "a"
        (initLoopState [] { role := .user, content := "q", id := some "u" } "a")
        [StreamEvent.error "boom", StreamEvent.content "after"]) =
      (processEvents "a"
        (initLoopState [] { role := .user, content := "q", id := some "u" } "a")
        [StreamEvent.content "after"]) ∧
    (∀ m ∈ (processEvents "a"
        (initLoopState [] { role := .user, content := "q", id := some "u" } "a")
        [StreamEvent.error "boom", StreamEvent.content "after"]).messages,
      m.id = some "a" → m.content = "after") := by
  constructor
  · rfl
  · decide

theorem frame_processEvents (aid : String) (es : List StreamEvent) :
    ∀ st : StreamLoopState,
      (processEvents aid st es).messages.length = st.messages.length ∧
      (∀ (i : ℕ) (m : Message), st.messages[i]? = some m →
        m.id ≠ some aid → (processEvents aid st es).messages[i]? = some m) := by
  induction es with
  | nil => intro st; exact ⟨rfl, fun i m h _ => h⟩
  | cons e es ih =>
    intro st
    have hstep_len : (applyEvent aid st e).messages.length = st.messages.length := by
      cases e <;> simp [applyEvent]
    have hstep : ∀ (i : ℕ) (m : Message), st.messages[i]? = some m →
        m.id ≠ some aid → (applyEvent aid st e).messages[i]? = some m := by
      intro i m h hid
      cases e with
      | content d => simp [applyEvent, List.getElem?_map, h, if_neg hid]
      | sources s => simp [applyEvent, List.getElem?_map, h, if_neg hid]
      | error msg => exact h
      | unknown => exact h
    refine ⟨?_, ?_⟩
    · rw [show processEvents aid st (e :: es) =
        processEvents aid (applyEvent aid st e) es from rfl]
      rw [(ih (applyEvent aid st e)).1, hstep_len]
    · intro i m h hid
      exact (ih (applyEvent aid st e)).2 i m (hstep i m h hid) hid

/-- C10: processing any sequence of streaming events preserves the
length and order of the message list, and every message whose id is not
the assistant placeholder id — all user messages and all messages of
earlier exchanges — is unchanged at its position.  This holds for all
events, in particular for `content` and `sources` events. -/
theorem stream_events_frame (aid : String) (st : StreamLoopState)
    (es : List StreamEvent) :
    (processEvents aid st es).messages.length = st.messages.length ∧
    (∀ (i : ℕ) (m : Message), st.messages[i]? = some m →
      m.id ≠ some aid → (processEvents aid st es).messages[i]? = some m) :=
  frame_processEvents aid es st

/-- Witness for C10: one content and one sources event over a history
holding a user message with a different id; that message is untouched at
its position. -/
theorem stream_events_frame_witness :
    (initLoopState [] ⟨.user, "hi", none, some "1"⟩ "2").messages[0]? =
        some ⟨.user, "hi", none, some "1"⟩ ∧
    (⟨Role.user, "hi", none, some "1"⟩ : Message).id ≠ some "2" ∧
    (processEvents "2" (initLoopState [] ⟨.user, "hi", none, some "1"⟩ "2")
        [StreamEvent.content "x", StreamEvent.sources []]).messages[0]? =
      some ⟨.user, "hi", none, some "1"⟩ :=
  ⟨by decide, by decide,
    (stream_events_frame "2"
        (initLoopState [] ⟨.user, "hi", none, some "1"⟩ "2")
        [StreamEvent.content "x", StreamEvent.sources []]).2 0
      ⟨.user, "hi", none, some "1"⟩ (by decide) (by decide)⟩

/-- Relation used by the comparator `(a, b) => b.score - a.score` of
`chat-message.tsx` line 80 (and `part_003` line 339): `a` may come
before `b` exactly when the comparator is non-positive, i.e. when
`b.score ≤ a.score`. -/
def scoreGE (a b : Source) : Prop := b.score ≤ a.score

instance : DecidableRel scoreGE := fun a b => inferInstanceAs (Decidable (b.score ≤ a.score))

instance : IsTotal Source scoreGE := ⟨fun a b => le_total b.score a.score⟩

instance : IsTrans Source scoreGE := ⟨fun _ _ _ h₁ h₂ => le_trans h₂ h₁⟩

/-- Display order of a message's sources:
`message.sources.sort((a, b) => b.score - a.score)`
(`chat-message.tsx` lines 79-81).  The JavaScript specification of
`Array.prototype.sort` promises a stable order sorted with respect to
the comparator; insertion sort over `scoreGE` is such an order. -/
def renderSources (l : List Source) : List Source :=
  l.insertionSort scoreGE

/-- C3: for every non-empty sources list, the sequence of scores in
display order is non-increasing, whatever the arrival order; the
rendered list is a permutation of the received one. -/
theorem rendered_sources_nonincreasing (l : List Source) (_hne : l ≠ []) :
    ((renderSources l).map Source.score).Sorted (· ≥ ·) ∧
      List.Perm (renderSources l) l := by
  refine ⟨?_, List.perm_insertionSort scoreGE l⟩
  have hs : (renderSources l).Sorted scoreGE :=
    List.sorted_insertionSort scoreGE l
  exact List.Pairwise.map Source.score (fun a b h => h) hs

/-- Witness for C3: three sources arriving in ascending score order are
displayed in descending order. -/
theorem rendered_sources_nonincreasing_witness :
    ([⟨"a", "t1", 1/2⟩, ⟨"b", "t2", 9/10⟩, ⟨"c", "t3", 7/10⟩] : List Source) ≠ [] ∧
    ((renderSources [⟨"a", "t1", 1/2⟩, ⟨"b", "t2", 9/10⟩, ⟨"c", "t3", 7/10⟩]).map
        Source.score).Sorted (· ≥ ·) ∧
      List.Perm (renderSources [⟨"a", "t1", 1/2⟩, ⟨"b", "t2", 9/10⟩, ⟨"c", "t3", 7/10⟩])
        [⟨"a", "t1", 1/2⟩, ⟨"b", "t2", 9/10⟩, ⟨"c", "t3", 7/10⟩] :=
  ⟨by simp,
    rendered_sources_nonincreasing
      [⟨"a", "t1", 1/2⟩, ⟨"b", "t2", 9/10⟩, ⟨"c", "t3", 7/10⟩] (by simp)⟩

/-- Request body of the streaming query
(`use-chat.ts` lines 68-73): message, `file_ids`, `user_id` and an
always-empty `chat_history`.  `none` models the JSON `null`. -/
structure QueryRequest where
  message : String
  file_ids : Option (List String)
  user_id : String
  chat_history : List Message
  hasAbortSignal : Bool
deriving DecidableEq, Repr

/-- Construction of the request body by `sendMessage`
(`use-chat.ts` lines 65-74): `file_ids` is
`fileIds.length > 0 ? fileIds : null` (line 70; the same expression
appears in `part_005` line 188), `chat_history` is `[]` and the fetch
carries the abort signal (line 74). -/
def mkQueryRequest (input : String) (fileIds : List String) (userId : String) :
    QueryRequest :=
  { message := input
    file_ids := if fileIds.length > 0 then some fileIds else none
    user_id := userId
    chat_history := []
    hasAbortSignal := true }

/-- C5: the `file_ids` field is `null` exactly when the selected-id list
(`Array.from(selectedFileIds)`) is empty, and otherwise equals that list
unchanged. -/
theorem file_ids_null_iff_empty (input : String) (fileIds : List String)
    (userId : String) :
    ((mkQueryRequest input fileIds userId).file_ids = none ↔ fileIds = []) ∧
    (fileIds ≠ [] →
      (mkQueryRequest input fileIds userId).file_ids = some fileIds) := by
  constructor
  · constructor
    · intro h
      by_contra hne
      have : fileIds.length > 0 := List.length_pos.mpr hne
      simp [mkQueryRequest, if_pos this] at h
    · intro h; subst h; rfl
  · intro hne
    have : fileIds.length > 0 := List.length_pos.mpr hne
    simp [mkQueryRequest, if_pos this]

/-- Witness for C5: an empty selection yields `null`, a one-element
selection is passed through. -/
theorem file_ids_null_iff_empty_witness :
    (((mkQueryRequest "q" [] "u").file_ids = none ↔ ([] : List String) = []) ∧
      (([] : List String) ≠ [] →
        (mkQueryRequest "q" [] "u").file_ids = some [])) ∧
    ((["f1"] : List String) ≠ [] ∧
      (mkQueryRequest "q" ["f1"] "u").file_ids = some ["f1"]) :=
  ⟨file_ids_null_iff_empty "q" [] "u",
    by simp, (file_ids_null_iff_empty "q" ["f1"] "u").2 (by simp)⟩

/-- Client-side user-id initialisation
(`part_002` lines 32-40 and `part_004` lines 43-51):

`let uid = localStorage.getItem("llamaindex_user_id");`
`if (!uid) { uid = "user_" + random; localStorage.setItem(..., uid); }`

The storage slot under the key `llamaindex_user_id` is modelled as an
`Option String` (`none` is `getItem` returning `null`); `fresh` stands
for the random suffix `Math.random().toString(36).substr(2, 9)`.  The
result is the id handed to `setUserId` together with the storage slot
after the run.  `!uid` is truthy for `null` and for the empty string. -/
def initUserId (stored : Option String) (fresh : String) :
    String × Option String :=
  match stored with
  | none => ("user_" ++ fresh, some ("user_" ++ fresh))
  | some uid =>
      if uid = "" then ("user_" ++ fresh, some ("user_" ++ fresh))
      else (uid, some uid)

theorem user_prefixed_ne_empty (f : String) : "user_" ++ f ≠ "" := by
  intro h
  have h2 : ("user_" ++ f).data = "".data := congrArg String.data h
  simp [String.data_append] at h2

/-- C8: the user-id initialisation is idempotent over client storage.
If a (non-empty) id is already stored it is returned unchanged and
storage is not modified; if nothing is stored, an id starting with
`user_` is generated and stored; and any subsequent run — whatever fresh
randomness it draws — returns that same id and leaves storage unchanged.
(The code itself only ever stores ids of the form `user_<suffix>`, which
are never empty, so the non-emptiness hypothesis covers every value this
code can have placed in storage.) -/
theorem init_user_id_idempotent (uid f g : String) (huid : uid ≠ "") :
    initUserId (some uid) f = (uid, some uid) ∧
    ((initUserId none f).1 = "user_" ++ f ∧
      (∃ t : String, "user_" ++ t = (initUserId none f).1) ∧
      (initUserId none f).2 = some ("user_" ++ f)) ∧
    initUserId ((initUserId none f).2) g = initUserId none f := by
  refine ⟨?_, ⟨rfl, ⟨f, rfl⟩, rfl⟩, ?_⟩
  · simp [initUserId, if_neg huid]
  · simp [initUserId, if_neg (user_prefixed_ne_empty f)]

/-- Witness for C8 with the stored id `user_abc` and fresh suffixes
`xyz` and `pqr`. -/
theorem init_user_id_idempotent_witness :
    ("user_abc" : String) ≠ "" ∧
    (initUserId (some "user_abc") "xyz" = ("user_abc", some "user_abc") ∧
    ((initUserId none "xyz").1 = "user_" ++ "xyz" ∧
      (∃ t : String, "user_" ++ t = (initUserId none "xyz").1) ∧
      (initUserId none "xyz").2 = some ("user_" ++ "xyz")) ∧
    initUserId ((initUserId none "xyz").2) "pqr" = initUserId none "xyz") :=
  ⟨by decide, init_user_id_idempotent "user_abc" "xyz" "pqr" (by decide)⟩

/-- Whitespace as JavaScript's `String.prototype.trim` sees it: the
WhiteSpace and LineTerminator code points (space, tab, LF, CR, VT, FF,
NBSP, ZWNBSP, LS, PS). -/
def isJsWs (c : Char) : Bool :=
  c = ' ' || c = '\t' || c = '\n' || c = '\r' || c = '\x0b' || c = '\x0c' ||
  c = '\u00A0' || c = '\uFEFF' || c = '\u2028' || c = '\u2029'

/-- JavaScript `trim()` on a character list: drop whitespace from both
ends. -/
def jsTrimL (l : List Char) : List Char :=
  ((l.dropWhile isJsWs).reverse.dropWhile isJsWs).reverse

theorem jsTrimL_eq_nil_of_all_ws (l : List Char) (h : l.all isJsWs = true) :
    jsTrimL l = [] := by
  have hd : l.dropWhile isJsWs = [] :=
    List.dropWhile_eq_nil_iff.mpr fun a ha => by
      simpa using List.all_eq_true.mp h a ha
  simp [jsTrimL, hd]

/-- State of the `useChat` hook: the message list and the loading flag. -/
structure HookState where
  messages : List Message
  isLoading : Bool
deriving DecidableEq, Repr

/-- Synchronous phase of `sendMessage` (`use-chat.ts` lines 33-75): the
guard `if (!input.trim() || isLoading) return;`, then the user message
and the assistant placeholder are appended, `isLoading` is set and the
streaming request is issued.  `uId` models `Date.now().toString()` and
`aid` models `(Date.now() + 1).toString()`.  The result is the new hook
state together with the request issued, if any. -/
def sendMessageStep (st : HookState) (input : String) (fileIds : List String)
    (userId uId aid : String) : HookState × Option QueryRequest :=
  if jsTrimL input.data = [] ∨ st.isLoading then (st, none)
  else
    ({ messages := st.messages ++
        [{ role := .user, content := input, id := some uId },
          assistantPlaceholder aid]
       isLoading := true },
      some (mkQueryRequest input fileIds userId))

/-- C6: when the input is empty or all whitespace, or a query is already
in flight (`isLoading`), `sendMessage` is a no-op: the hook state
(including the message list) is unchanged and no request is issued.
The same guard appears verbatim in `chat.tsx` line 34. -/
theorem send_message_guard (st : HookState) (input : String)
    (fileIds : List String) (userId uId aid : String)
    (h : input.data.all isJsWs = true ∨ st.isLoading = true) :
    sendMessageStep st input fileIds userId uId aid = (st, none) := by
  rcases h with h | h
  · simp [sendMessageStep, jsTrimL_eq_nil_of_all_ws input.data h]
  · simp [sendMessageStep, h]

/-- Witness for C6: a three-space input is dropped even with an empty
selection and no query in flight. -/
theorem send_message_guard_witness :
    ("   " : String).data.all isJsWs = true ∧
    sendMessageStep ⟨[], false⟩ "   " [] "u" "1" "2" = (⟨[], false⟩, none) :=
  ⟨by decide, send_message_guard ⟨[], false⟩ "   " [] "u" "1" "2"
    (Or.inl (by decide))⟩

/-- Outcome of the asynchronous part of a streaming query, as seen by
the `try`/`catch`/`finally` of `sendMessage` (`use-chat.ts` lines
64-143).  Each case records the events already applied when the outcome
materialised. -/
inductive StreamOutcome where
  | completed (es : List StreamEvent)
  | aborted (es : List StreamEvent)
  | failed (es : List StreamEvent) (msg : String)
deriving DecidableEq, Repr

/-- Error text appended to the assistant message by the outer `catch`
(`use-chat.ts` line 136). -/
def appendErrorText (aid : String) (st : StreamLoopState) (msg : String) :
    StreamLoopState :=
  { st with messages := st.messages.map fun m =>
      if m.id = some aid then
        { m with content := m.content ++ "\n\n[Error: " ++ msg ++ "]" }
      else m }

/-- Final state reached by `sendMessage` for each outcome:

* completed: the loop state after all events; `finally` clears loading;
* aborted: the outer `catch` matches `AbortError` and returns at once
  (line 130), so nothing is appended; `finally` still clears loading;
* failed: the outer `catch` appends the error text (line 136) and
  `finally` clears loading.

The second component is the final `isLoading`. -/
def finishSend (aid : String) (st : StreamLoopState) :
    StreamOutcome → StreamLoopState × Bool
  | .completed es => (processEvents aid st es, false)
  | .aborted es => (processEvents aid st es, false)
  | .failed es msg => (appendErrorText aid (processEvents aid st es) msg, false)

/-- C7: every streaming request carries the abort signal (so an abort
cancels the upstream fetch), and a canceled query finishes with exactly
the state produced by the events already processed — no error text is
appended to any message — and with the loading flag cleared. -/
theorem aborted_query_clean (aid : String) (st : StreamLoopState)
    (es : List StreamEvent) (input : String) (fileIds : List String)
    (userId : String) :
    (mkQueryRequest input fileIds userId).hasAbortSignal = true ∧
    finishSend aid st (.aborted es) = (processEvents aid st es, false) :=
  ⟨rfl, rfl⟩

/-- Size ceiling of the dropzone (`file-upload.tsx` line 77:
`maxSize: 15728640`). -/
def maxUploadSize : ℕ := 15728640

/-- Extensions of the `accept` map (`file-upload.tsx` lines 71-76). -/
def allowedExts : List String := [".txt", ".pdf", ".docx", ".md"]

/-- A file offered to the dropzone, seen at the validation interface:
its name, its extension and its size in bytes. -/
structure OfferedFile where
  name : String
  ext : String
  size : ℕ
deriving DecidableEq, Repr

/-- Rejection codes produced by the dropzone validator and dispatched on
in `onDrop` (`file-upload.tsx` lines 24-28). -/
inductive RejectReason where
  | fileTooLarge
  | fileInvalidType
deriving DecidableEq, Repr

/-- Validation the dropzone library applies to one offered file, given
the component's configuration (`accept` and `maxSize`): a type error
when the extension is not in the accept map, a size error when the size
exceeds `maxSize`; the type check comes first in the error list. -/
def classifyFile (f : OfferedFile) : List RejectReason :=
  (if f.ext ∈ allowedExts then [] else [RejectReason.fileInvalidType]) ++
    (if f.size > maxUploadSize then [RejectReason.fileTooLarge] else [])

/-- Outcome of dropping a single file (the component sets
`multiple: false`, so one file is offered per interaction): it lands in
the accepted list or in the rejection list with its errors. -/
def singleDrop (f : OfferedFile) :
    List OfferedFile × List (OfferedFile × List RejectReason) :=
  if classifyFile f = [] then ([f], []) else ([], [(f, classifyFile f)])

/-- Error message chosen by `onDrop` from the first error of the first
rejection (`file-upload.tsx` lines 20-30). -/
def rejectionText : List RejectReason → String
  | RejectReason.fileTooLarge :: _ => "文件大小不能超过15MB"
  | RejectReason.fileInvalidType :: _ => "不支持的文件格式（仅支持 TXT, PDF, DOCX, MD）"
  | [] => "上传出错"

/-- The `onDrop` handler (`file-upload.tsx` lines 18-67): when any
rejection is present it shows the corresponding error message and
returns before any request; otherwise it uploads `acceptedFiles[0]` (one
`POST /api/files/upload` request).  The first component lists the files
for which an upload request is issued, the second is the error message
shown, if any. -/
def onDrop (accepted : List OfferedFile)
    (rejections : List (OfferedFile × List RejectReason)) :
    List OfferedFile × Option String :=
  match rejections with
  | r :: _ => ([], some (rejectionText r.2))
  | [] =>
    match accepted with
    | [] => ([], none)
    | f :: _ => ([f], none)

/-- Offering one file to the component: dropzone validation followed by
the `onDrop` handler. -/
def dropFile (f : OfferedFile) : List OfferedFile × Option String :=
  onDrop (singleDrop f).1 (singleDrop f).2

/-- C4: a file whose extension is outside the accept list is rejected
with the format error message and no upload request; a file of an
accepted type whose size exceeds 15728640 bytes is rejected with the
size error message and no upload request; an accepted file produces
exactly one upload request (and no error). -/
theorem upload_validation (f : OfferedFile) :
    (f.ext ∉ allowedExts →
      dropFile f = ([], some "不支持的文件格式（仅支持 TXT, PDF, DOCX, MD）")) ∧
    (f.ext ∈ allowedExts → f.size > maxUploadSize →
      dropFile f = ([], some "文件大小不能超过15MB")) ∧
    (f.ext ∈ allowedExts → f.size ≤ maxUploadSize →
      dropFile f = ([f], none)) := by
  refine ⟨?_, ?_, ?_⟩
  · intro hext
    by_cases hsize : f.size > maxUploadSize <;>
      simp [dropFile, singleDrop, classifyFile, onDrop, rejectionText,
        hext, hsize]
  · intro hext hsize
    simp [dropFile, singleDrop, classifyFile, onDrop, rejectionText,
      hext, hsize]
  · intro hext hsize
    simp [dropFile, singleDrop, classifyFile, onDrop,
      hext, Nat.not_lt.mpr hsize]

/-- Witness for C4: a `.exe` file is rejected for its type, a 16 MB
`.txt` file for its size, and a small `.txt` file is uploaded once. -/
theorem upload_validation_witness :
    ((⟨"a.exe", ".exe", 10⟩ : OfferedFile).ext ∉ allowedExts ∧
      dropFile ⟨"a.exe", ".exe", 10⟩ =
        ([], some "不支持的文件格式（仅支持 TXT, PDF, DOCX, MD）")) ∧
    ((⟨"b.txt", ".txt", 16000000⟩ : OfferedFile).ext ∈ allowedExts ∧
      (⟨"b.txt", ".txt", 16000000⟩ : OfferedFile).size > maxUploadSize ∧
      dropFile ⟨"b.txt", ".txt", 16000000⟩ =
        ([], some "文件大小不能超过15MB")) ∧
    ((⟨"c.txt", ".txt", 1000⟩ : OfferedFile).ext ∈ allowedExts ∧
      (⟨"c.txt", ".txt", 1000⟩ : OfferedFile).size ≤ maxUploadSize ∧
      dropFile ⟨"c.txt", ".txt", 1000⟩ = ([⟨"c.txt", ".txt", 1000⟩], none)) :=
  ⟨⟨by decide, (upload_validation ⟨"a.exe", ".exe", 10⟩).1 (by decide)⟩,
    ⟨by decide, by decide,
      (upload_validation ⟨"b.txt", ".txt", 16000000⟩).2.1 (by decide) (by decide)⟩,
    ⟨by decide, by decide,
      (upload_validation ⟨"c.txt", ".txt", 1000⟩).2.2 (by decide) (by decide)⟩⟩

/-- Newline split, the model of `buffer.split("\n")`
(`use-chat.ts` line 93) on decoded characters: always returns at least
one (possibly empty) segment; a trailing newline yields a trailing empty
segment, exactly as in JavaScript. -/
def splitNl : List Char → List (List Char)
  | [] => [[]]
  | c :: cs =>
    if c = '\n' then [] :: splitNl cs
    else (c :: (splitNl cs).headD []) :: (splitNl cs).tail

theorem splitNl_ne_nil (l : List Char) : splitNl l ≠ [] := by
  cases l with
  | nil => simp [splitNl]
  | cons c cs =>
    simp only [splitNl]
    split <;> simp

/-- Merging a pending buffer into the first segment of a split. -/
def glue (x : List Char) : List (List Char) → List (List Char)
  | [] => [x]
  | l :: ls => (x ++ l) :: ls

theorem getLastD_cons_eq {α : Type} (x d : α) (l : List α) :
    (x :: l).getLastD d = l.getLastD x := by
  cases l <;> simp [List.getLastD]

theorem getLastD_irrel {α : Type} (l : List α) (h : l ≠ []) (d d' : α) :
    l.getLastD d = l.getLastD d' := by
  cases l with
  | nil => exact absurd rfl h
  | cons a as => rw [getLastD_cons_eq, getLastD_cons_eq]

/-- Splitting a concatenation: the last (pending) segment of the first
part merges with the first segment of the second part. -/
theorem splitNl_append (a b : List Char) :
    splitNl (a ++ b) =
      (splitNl a).dropLast ++ glue ((splitNl a).getLastD []) (splitNl b) := by
  induction a with
  | nil =>
    rcases hb : splitNl b with _ | ⟨y, ys⟩
    · exact absurd hb (splitNl_ne_nil b)
    · simp [splitNl, glue, hb]
  | cons c cs ih =>
    by_cases hc : c = '\n'
    · subst hc
      have hne := splitNl_ne_nil cs
      calc splitNl (('\n' :: cs) ++ b)
          = [] :: splitNl (cs ++ b) := by simp [splitNl]
        _ = [] :: ((splitNl cs).dropLast ++
              glue ((splitNl cs).getLastD []) (splitNl b)) := by rw [ih]
        _ = ([] :: (splitNl cs).dropLast) ++
              glue ((splitNl cs).getLastD []) (splitNl b) := rfl
        _ = (splitNl ('\n' :: cs)).dropLast ++
              glue ((splitNl ('\n' :: cs)).getLastD []) (splitNl b) := by
            rw [show splitNl ('\n' :: cs) = [] :: splitNl cs from by
              simp [splitNl]]
            rw [List.dropLast_cons_of_ne_nil hne, getLastD_cons_eq]
    · rcases hr : splitNl cs with _ | ⟨x, t⟩
      · exact absurd hr (splitNl_ne_nil cs)
      · cases t with
        | nil =>
          rcases hb : splitNl b with _ | ⟨y, ys⟩
          · exact absurd hb (splitNl_ne_nil b)
          · simp [splitNl, if_neg hc, ih, hr, hb, glue]
        | cons x' xs =>
          have hL : splitNl ((c :: cs) ++ b) =
              (c :: (splitNl (cs ++ b)).headD []) ::
                (splitNl (cs ++ b)).tail := by
            simp [splitNl, if_neg hc]
          rw [hL, ih, hr]
          rw [show splitNl (c :: cs) = (c :: x) :: x' :: xs from by
            simp [splitNl, if_neg hc, hr]]
          simp only [List.dropLast_cons_of_ne_nil (List.cons_ne_nil x' xs),
            getLastD_cons_eq, List.cons_append, List.headD_cons,
            List.tail_cons]
theorem splitNl_no_nl (l : List Char) (h : ∀ c ∈ l, c ≠ '\n') :
    splitNl l = [l] := by
  induction l with
  | nil => rfl
  | cons c cs ih =>
    have hc : c ≠ '\n' := h c (by simp)
    have hcs := ih fun c' hc' => h c' (by simp [hc'])
    simp [splitNl, if_neg hc, hcs]

theorem splitNl_last_no_nl (l : List Char) :
    ∀ c ∈ (splitNl l).getLastD [], c ≠ '\n' := by
  induction l with
  | nil => simp [splitNl]
  | cons c cs ih =>
    by_cases hc : c = '\n'
    · subst hc
      rw [show splitNl ('\n' :: cs) = [] :: splitNl cs from by simp [splitNl]]
      rw [getLastD_cons_eq]
      have hne := splitNl_ne_nil cs
      rw [getLastD_irrel _ hne _ ([] : List Char)]
      exact ih
    · simp only [splitNl, if_neg hc]
      rcases hr : splitNl cs with _ | ⟨x, t⟩
      · exact absurd hr (splitNl_ne_nil cs)
      · cases t with
        | nil =>
          simp only [List.headD_cons, List.tail_cons]
          rw [show ([c :: x] : List (List Char)).getLastD [] = c :: x from rfl]
          intro c' hc'
          rcases List.mem_cons.mp hc' with rfl | hmem
          · exact hc
          · have := ih
            rw [hr] at this
            exact this c' (by simpa using hmem)
        | cons x' xs =>
          simp only [List.headD_cons, List.tail_cons]
          rw [getLastD_cons_eq,
            getLastD_irrel (x' :: xs) (List.cons_ne_nil x' xs) (c :: x) x]
          have := ih
          rw [hr, getLastD_cons_eq] at this
          exact this

/-- One iteration of the read loop (`use-chat.ts` lines 92-94):
`buffer += decoder.decode(value)`, `lines = buffer.split("\n")`,
`buffer = lines.pop() || ""`.  The accumulator pairs the completed lines
emitted so far with the pending buffer. -/
def feedChunk (acc : List (List Char) × List Char) (chunk : List Char) :
    List (List Char) × List Char :=
  let s := splitNl (acc.2 ++ chunk)
  (acc.1 ++ s.dropLast, s.getLastD [])

theorem feedChunk_def (done : List (List Char)) (buf chunk : List Char) :
    feedChunk (done, buf) chunk =
      (done ++ (splitNl (buf ++ chunk)).dropLast,
        (splitNl (buf ++ chunk)).getLastD []) := rfl

/-- Processing a whole sequence of received chunks through the
buffer-and-split loop, starting from the empty buffer
(`let buffer = ""`, line 84). -/
def processChunks (chunks : List (List Char)) :
    List (List Char) × List Char :=
  chunks.foldl feedChunk ([], [])

/-- Closed form of the loop: from a newline-free pending buffer, folding
any chunk sequence emits exactly the newline-terminated lines of
`buf ++ chunks.flatten` and retains the trailing segment. -/
theorem foldl_feedChunk (chunks : List (List Char)) :
    ∀ (done : List (List Char)) (buf : List Char),
      (∀ c ∈ buf, c ≠ '\n') →
      chunks.foldl feedChunk (done, buf) =
        (done ++ (splitNl (buf ++ chunks.flatten)).dropLast,
          (splitNl (buf ++ chunks.flatten)).getLastD []) := by
  induction chunks with
  | nil =>
    intro done buf hbuf
    simp [splitNl_no_nl buf hbuf]
  | cons ch chunks ih =>
    intro done buf hbuf
    rw [List.foldl_cons, feedChunk_def,
      ih (done ++ (splitNl (buf ++ ch)).dropLast)
        ((splitNl (buf ++ ch)).getLastD []) (splitNl_last_no_nl _)]
    have hu : splitNl ((splitNl (buf ++ ch)).getLastD [] ++ chunks.flatten) =
        glue ((splitNl (buf ++ ch)).getLastD []) (splitNl chunks.flatten) := by
      rw [splitNl_append, splitNl_no_nl _ (splitNl_last_no_nl (buf ++ ch))]
      rfl
    have hkey : splitNl (buf ++ (ch :: chunks).flatten) =
        (splitNl (buf ++ ch)).dropLast ++
          splitNl ((splitNl (buf ++ ch)).getLastD [] ++ chunks.flatten) := by
      rw [hu, List.flatten_cons, show buf ++ (ch ++ chunks.flatten) =
        (buf ++ ch) ++ chunks.flatten from by rw [List.append_assoc],
        splitNl_append]
    rw [hkey, List.dropLast_append_of_ne_nil _ (splitNl_ne_nil _),
      List.append_assoc]
    simp only [List.getLastD_eq_getLast?]
    rw [List.getLast?_append_of_ne_nil _ (splitNl_ne_nil _)]

/-- Marker of a payload line (`line.startsWith("data: ")`,
`use-chat.ts` line 97). -/
def dataMarker : List Char := 'd' :: 'a' :: 't' :: 'a' :: ':' :: ' ' :: []

/-- Payload extraction applied to each completed line
(`use-chat.ts` lines 96-101): blank lines and lines without the
`data: ` marker are skipped, the payload is the line after the first six
characters (`line.substring(6)`); the payload is then fed to
`JSON.parse`, so equal payload sequences parse to equal event
sequences. -/
def extractPayloads (lines : List (List Char)) : List (List Char) :=
  lines.filterMap fun l =>
    if jsTrimL l = [] then none
    else if dataMarker.isPrefixOf l then some (l.drop 6) else none

/-- C9: the stream parser is chunking-independent.  For every partition
`chunks` of the serialized stream, the buffer-and-split loop emits the
same completed lines — hence the same parsed events — as processing the
whole serialization `chunks.flatten` as a single chunk; the lines processed
are exactly the newline-terminated segments, and the trailing segment
not terminated by a newline stays in the buffer, never processed. -/
theorem stream_chunking_independent (chunks : List (List Char)) :
    processChunks chunks = processChunks [chunks.flatten] ∧
    (processChunks chunks).1 = (splitNl chunks.flatten).dropLast ∧
    (processChunks chunks).2 = (splitNl chunks.flatten).getLastD [] ∧
    extractPayloads (processChunks chunks).1 =
      extractPayloads (processChunks [chunks.flatten]).1 := by
  have h1 : processChunks chunks =
      ((splitNl chunks.flatten).dropLast, (splitNl chunks.flatten).getLastD []) := by
    rw [processChunks, foldl_feedChunk chunks [] [] (by simp)]
    simp
  have h2 : processChunks [chunks.flatten] =
      ((splitNl chunks.flatten).dropLast, (splitNl chunks.flatten).getLastD []) := by
    rw [processChunks, foldl_feedChunk [chunks.flatten] [] [] (by simp)]
    simp
  refine ⟨h1.trans h2.symm, ?_, ?_, by rw [h1.trans h2.symm]⟩
  · rw [h1]
  · rw [h1]

end LlamaChat
